import Mathlib

/-!
Verification development for the RiskyRag scraper pipeline
(`src/scraper/src/riskyrag`): a shallow embedding of the text chunker
(`processors/chunking.py`), the LLM temporal filter
(`processors/llm_filter.py`), the fetch retry layer (`scrapers/base.py`)
and the processing pipeline (`processors/pipeline.py`), together with
theorems about the behaviour the specification describes.

Python strings are modeled as Lean `String` (a wrapper around
`List Char`); the Python string primitives the code uses
(`str.strip`, `str.replace`, `" ".join`, `str.lower`, `re`-based
splitting and whitespace collapsing) are defined below at the character
level, following CPython's ASCII whitespace set.
-/

namespace RiskyRag

/-- Python's whitespace test restricted to the ASCII whitespace
characters used by `str.strip` and the regex class `\s`. -/
def pyIsSpace (c : Char) : Bool :=
  c == ' ' || c == '\t' || c == '\n' || c == '\r' || c == '\x0B' || c == '\x0C'

/-- Strip leading and trailing whitespace from a character list
(Python `str.strip()` at the `List Char` level). -/
def trimChars (l : List Char) : List Char :=
  ((l.dropWhile pyIsSpace).reverse.dropWhile pyIsSpace).reverse

/-- Python `str.strip()` on strings. -/
def pyStrip (s : String) : String :=
  ⟨trimChars s.data⟩

/-- Python `" ".join(l)`: concatenate with a single space between
consecutive elements. -/
def pyJoin : List String → String
  | [] => ""
  | [s] => s
  | s :: t :: rest => s ++ " " ++ pyJoin (t :: rest)

/-- Python `str.lower()` (ASCII case folding). -/
def pyLower (s : String) : String :=
  ⟨s.data.map Char.toLower⟩

/-- Python `re.sub(r"\s+", " ", ·)` at the character level: every
maximal run of whitespace becomes a single space.  The Boolean flag
records whether the scan is inside a whitespace run. -/
def collapseWsAux (inRun : Bool) : List Char → List Char
  | [] => []
  | c :: rest =>
    if pyIsSpace c then
      if inRun then collapseWsAux true rest
      else ' ' :: collapseWsAux true rest
    else c :: collapseWsAux false rest

/-- `re.sub(r"\s+", " ", ·)`. -/
def collapseWs (l : List Char) : List Char :=
  collapseWsAux false l

/-- Python `str.replace(pat, rep)` driver: replace every
non-overlapping occurrence of `pat` left to right.  `fuel` bounds the
number of scan steps so the recursion is structural; since every step
consumes at least one input character, `fuel = s.length` (as passed by
`replaceChars`) never runs out. -/
def replaceFuel (pat rep : List Char) : Nat → List Char → List Char
  | _, [] => []
  | 0, s => s
  | fuel + 1, c :: rest =>
    match pat with
    | [] => c :: rest
    | _ :: _ =>
      if pat.isPrefixOf (c :: rest) then
        rep ++ replaceFuel pat rep fuel (List.drop pat.length (c :: rest))
      else
        c :: replaceFuel pat rep fuel rest

/-- Python `str.replace(pat, rep)`.  An empty pattern leaves the string
unchanged (the source never calls it with an empty pattern). -/
def replaceChars (pat rep s : List Char) : List Char :=
  replaceFuel pat rep s.length s

/-! ### core/types.py -/

/-- `EventType` enum from `core/types.py`. -/
inductive EventType where
  | battle | treaty | territorialChange | leaderChange | alliance
  | declaration | siege | diplomatic | economic | religious | other
deriving DecidableEq, Repr

/-- `HistoricalEvent` from `core/types.py`.  The `event_date` /
`publication_date` datetimes are represented by their derived
millisecond timestamps (`event_timestamp` / `publication_timestamp`),
which is all the chunker and pipeline read. -/
structure HistoricalEvent where
  title : String
  content : String
  event_timestamp : Int
  publication_timestamp : Int
  participants : List String
  event_type : EventType
  region : String
  source_url : String
  tags : List String
deriving DecidableEq, Repr

/-- `RawDocument` from `core/types.py` (`fetched_at` as a timestamp). -/
structure RawDocument where
  url : String
  html : String
  fetched_at : Int
  source : String
  title : Option String
deriving DecidableEq, Repr

/-- `ProcessedSnippet` from `core/types.py`.  Embedding vectors are
opaque data the pipeline never computes with; their float entries are
modeled as integers. -/
structure ProcessedSnippet where
  content : String
  embedding : List Int
  event_date : Int
  publication_date : Int
  source : String
  source_url : Option String
  region : String
  tags : List String
  title : Option String
  participants : Option (List String)
  content_hash : Option String
deriving DecidableEq, Repr

/-- `ProcessedSnippet.__post_init__`: when no `content_hash` was given,
set it to the digest of `f"{content}:{event_date}"`.  The external MD5
digest (`hashlib.md5(...).hexdigest()`) is the parameter `md5hex`. -/
def ProcessedSnippet.post_init (md5hex : String → String)
    (s : ProcessedSnippet) : ProcessedSnippet :=
  match s.content_hash with
  | some _ => s
  | none =>
    { s with content_hash := some (md5hex (s.content ++ ":" ++ toString s.event_date)) }

/-! ### processors/chunking.py -/

/-- `Chunk` dataclass from `processors/chunking.py`. -/
structure Chunk where
  content : String
  chunk_index : Nat
  total_chunks : Nat
  parent_title : String
  event_date : Int
  publication_date : Int
  source_url : String
  region : String
  tags : List String
  participants : List String
deriving DecidableEq, Repr

/-- `TextChunker` configuration (constructor arguments). -/
structure TextChunker where
  chunk_size : Nat
  chunk_overlap : Nat
  min_chunk_size : Nat
deriving DecidableEq, Repr

/-- Loop body of `_get_overlap_sentences`: walk the reversed sentence
list, take sentences while `total_length + len(sentence) <= chunk_overlap`
holds, adding `len(sentence) + 1` to the running total for each taken
sentence, and stop at the first sentence that would overflow.  The
result is the taken sentences in reversed (i.e. backward) order. -/
def selectOverlapRev (chunk_overlap : Nat) : Nat → List String → List String
  | _, [] => []
  | total, s :: rest =>
    if total + s.length ≤ chunk_overlap then
      s :: selectOverlapRev chunk_overlap (total + s.length + 1) rest
    else []

/-- `TextChunker._get_overlap_sentences`: trailing whole sentences that
fit within `chunk_overlap`, joined by single spaces. -/
def TextChunker.get_overlap_sentences (ck : TextChunker)
    (sentences : List String) : String :=
  pyJoin (selectOverlapRev ck.chunk_overlap 0 sentences.reverse).reverse

/-- Mutable state of the `_group_sentences` loop. -/
structure GroupState where
  chunks : List String
  current_chunk : List String
  current_length : Nat
deriving DecidableEq, Repr

/-- One iteration of the `for sentence in sentences` loop of
`_group_sentences`. -/
def groupStep (ck : TextChunker) (st : GroupState) (sentence : String) :
    GroupState :=
  let st :=
    if ck.chunk_size < st.current_length + sentence.length ∧ st.current_chunk ≠ [] then
      let overlap_text := ck.get_overlap_sentences st.current_chunk
      if overlap_text ≠ "" then
        { chunks := st.chunks ++ [pyJoin st.current_chunk],
          current_chunk := [overlap_text],
          current_length := overlap_text.length }
      else
        { chunks := st.chunks ++ [pyJoin st.current_chunk],
          current_chunk := [], current_length := 0 }
    else st
  { st with
    current_chunk := st.current_chunk ++ [sentence],
    current_length := st.current_length + sentence.length + 1 }

/-- `chunks[-1] = chunks[-1] + " " + final_chunk` (only reached with a
non-empty chunk list). -/
def mergeLast (final_chunk : String) : List String → List String
  | [] => [final_chunk]
  | [last] => [last ++ " " ++ final_chunk]
  | c :: d :: rest => c :: mergeLast final_chunk (d :: rest)

/-- `TextChunker._group_sentences`: greedily pack sentences into chunks
of at most `chunk_size` characters, seeding each new chunk with the
previous chunk's overlap text; a final chunk below `min_chunk_size` is
merged into the previous chunk unless it is the only one. -/
def TextChunker.group_sentences (ck : TextChunker)
    (sentences : List String) : List String :=
  if sentences = [] then []
  else
    let st := sentences.foldl (groupStep ck) ⟨[], [], 0⟩
    if st.current_chunk ≠ [] then
      let final_chunk := pyJoin st.current_chunk
      if ck.min_chunk_size ≤ final_chunk.length ∨ st.chunks = [] then
        st.chunks ++ [final_chunk]
      else
        mergeLast final_chunk st.chunks
    else st.chunks

/-- Protected abbreviation list from `_split_sentences`. -/
def abbreviations : List String :=
  ["Dr.", "Mr.", "Mrs.", "Ms.", "Jr.", "Sr.", "St.", "Gen.", "Col.",
   "Capt.", "Lt.", "Rev.", "Hon.", "Prof.", "U.S.", "U.K.", "etc.",
   "vs.", "i.e.", "e.g.", "c.", "ca.", "No.", "Vol.", "pp.", "Ch."]

/-- The null-character placeholder used to protect abbreviation
periods. -/
def placeholder : Char := '\x00'

/-- `abbr.replace(".", placeholder)`. -/
def protectedForm (ab : String) : String :=
  ⟨replaceChars ['.'] [placeholder] ab.data⟩

/-- The abbreviation-protection loop of `_split_sentences`:
`protected = protected.replace(abbr, abbr.replace(".", placeholder))`
for each abbreviation in order. -/
def protectText (s : List Char) : List Char :=
  abbreviations.foldl
    (fun acc ab => replaceChars ab.data (protectedForm ab).data acc) s

/-- Sentence-ending punctuation of the split regex (`[.!?]`). -/
def sentEnd (c : Char) : Bool :=
  c == '.' || c == '!' || c == '?'

/-- The regex class `[A-Z]`. -/
def isUpperAZ (c : Char) : Bool :=
  'A' ≤ c && c ≤ 'Z'

/-- Scan driver of `re.split(r"(?<=[.!?])\s+(?=[A-Z])", ·)`: scan left
to right; at a sentence-ending character followed by a non-empty
whitespace run whose next character is an ASCII capital, close the
current piece (the run is consumed, the capital starts the next
piece).  `cur` holds the current piece reversed.  `fuel` bounds the
number of scan steps so the recursion is structural; every step
consumes at least one input character, so `fuel = input.length` (as
passed by `regexSplit`) never runs out and the fuel-exhaustion
fallback is unreachable. -/
def regexSplitFuel : Nat → List Char → List Char → List (List Char)
  | 0, cur, rest => [cur.reverse ++ rest]
  | _ + 1, cur, [] => [cur.reverse]
  | fuel + 1, cur, c :: rest =>
    if sentEnd c then
      let ws := rest.takeWhile pyIsSpace
      let rest' := rest.dropWhile pyIsSpace
      match rest'.head? with
      | some d =>
        if ws ≠ [] ∧ isUpperAZ d then
          (c :: cur).reverse :: regexSplitFuel fuel [] rest'
        else regexSplitFuel fuel (c :: cur) rest
      | none => regexSplitFuel fuel (c :: cur) rest
    else regexSplitFuel fuel (c :: cur) rest

/-- `re.split(r"(?<=[.!?])\s+(?=[A-Z])", ·)` at the character level. -/
def regexSplit (cur input : List Char) : List (List Char) :=
  regexSplitFuel input.length cur input

/-- `TextChunker._split_sentences`: protect abbreviations, split on
sentence endings, then restore the protected periods, strip each piece
and keep the non-empty ones. -/
def split_sentences (text : List Char) : List String :=
  let pieces := regexSplit [] (protectText text)
  pieces.filterMap fun p =>
    let restored := trimChars (replaceChars [placeholder] ['.'] p)
    if restored = [] then none else some (⟨restored⟩ : String)

/-- `TextChunker.chunk_event`: strip the event content; a small content
becomes a single chunk, otherwise the content is split into sentences,
grouped into chunk texts and wrapped into `Chunk` records carrying the
parent event's metadata. -/
def TextChunker.chunk_event (ck : TextChunker) (event : HistoricalEvent) :
    List Chunk :=
  let content := pyStrip event.content
  if content.length ≤ ck.chunk_size then
    [{ content := content, chunk_index := 0, total_chunks := 1,
       parent_title := event.title,
       event_date := event.event_timestamp,
       publication_date := event.publication_timestamp,
       source_url := event.source_url, region := event.region,
       tags := event.tags, participants := event.participants }]
  else
    let sentences := split_sentences content.data
    let chunks_text := ck.group_sentences sentences
    chunks_text.enum.map fun p =>
      { content := p.2, chunk_index := p.1,
        total_chunks := chunks_text.length,
        parent_title := event.title,
        event_date := event.event_timestamp,
        publication_date := event.publication_timestamp,
        source_url := event.source_url, region := event.region,
        tags := event.tags, participants := event.participants }

/-! ### processors/llm_filter.py -/

/-- Errors of a single external filter call: an HTTP status error
(`httpx.HTTPStatusError` after `raise_for_status`) or any other
exception.  `LLMFilter.filter_chunk` handles both identically. -/
inductive FilterError where
  | httpStatus (code : Nat)
  | other (msg : String)
deriving DecidableEq, Repr

/-- `FilterResult` dataclass. -/
structure FilterResult where
  original_content : String
  filtered_content : String
  was_modified : Bool
  removed_entirely : Bool
deriving DecidableEq, Repr

/-- `LLMFilter._normalize_text`:
`re.sub(r"\s+", " ", text.strip().lower())`. -/
def normalize_text (s : String) : String :=
  ⟨collapseWs (pyLower (pyStrip s)).data⟩

/-- `LLMFilter.filter_chunk`.  The external filter collaborator is the
parameter `resp`, mapping a chunk to either the raw response text
(`data["content"][0]["text"]`) or a call failure.  On success the
stripped text is interpreted: the sentinel `"NO_CONTENT"` or an empty
text marks the chunk as removed; otherwise normalized comparison with
the original sets `was_modified`.  On any failure the chunk passes
through unmodified (fail open). -/
def LLMFilter.filter_chunk (resp : Chunk → Except FilterError String)
    (chunk : Chunk) : FilterResult :=
  match resp chunk with
  | .ok raw =>
    let filtered_content := pyStrip raw
    let removed_entirely : Bool :=
      filtered_content == "NO_CONTENT" || filtered_content == ""
    let was_modified : Bool :=
      removed_entirely ||
        normalize_text filtered_content != normalize_text chunk.content
    { original_content := chunk.content,
      filtered_content := if removed_entirely then "" else filtered_content,
      was_modified := was_modified,
      removed_entirely := removed_entirely }
  | .error _ =>
    { original_content := chunk.content,
      filtered_content := chunk.content,
      was_modified := false,
      removed_entirely := false }

/-- The fixed batch size of `LLMFilter.filter_chunks`. -/
def filterBatchSize : Nat := 10

/-- Batch-slicing driver: `chunks[i : i + batch_size]` slices for
`i in range(0, len(chunks), batch_size)`.  `fuel` bounds the number of
slices so the recursion is structural; each slice consumes at least
one chunk, so `fuel = chunks.length` (as passed by `toBatches`) never
runs out. -/
def toBatchesFuel : Nat → List Chunk → List (List Chunk)
  | _, [] => []
  | 0, l => [l]
  | fuel + 1, c :: rest =>
    (c :: rest).take filterBatchSize ::
      toBatchesFuel fuel ((c :: rest).drop filterBatchSize)

/-- `chunks[i : i + batch_size]` slices for
`i in range(0, len(chunks), batch_size)`. -/
def toBatches (chunks : List Chunk) : List (List Chunk) :=
  toBatchesFuel chunks.length chunks

/-- Inner loop of `LLMFilter.filter_chunks` over one batch: chunks whose
result is `removed_entirely` are skipped, the others are appended as
`(chunk, filtered_content)` pairs. -/
def processBatch (resp : Chunk → Except FilterError String)
    (batch : List Chunk) : List (Chunk × String) :=
  batch.foldl
    (fun acc chunk =>
      let result := LLMFilter.filter_chunk resp chunk
      if result.removed_entirely then acc
      else acc ++ [(chunk, result.filtered_content)])
    []

/-- `LLMFilter.filter_chunks`: with `skip_filter` every chunk passes
through; otherwise the chunks are processed in batches of ten
(`asyncio.gather` returns results in task order, so each batch's pairs
appear in input order). -/
def LLMFilter.filter_chunks (resp : Chunk → Except FilterError String)
    (chunks : List Chunk) (skip_filter : Bool) : List (Chunk × String) :=
  if skip_filter then chunks.map fun chunk => (chunk, chunk.content)
  else
    (toBatches chunks).foldl (fun acc batch => acc ++ processBatch resp batch) []

/-! ### scrapers/base.py -/

/-- Outcome classification of one `fetch` attempt's raised exception:
`httpx.HTTPStatusError`, `httpx.TimeoutException`, or anything else. -/
inductive FetchErr where
  | httpStatusError (code : Nat)
  | timeoutError
  | otherError (msg : String)
deriving DecidableEq, Repr

/-- `retry_if_exception_type((httpx.HTTPStatusError,
httpx.TimeoutException))`: the transient failures that are retried. -/
def FetchErr.is_transient : FetchErr → Bool
  | .httpStatusError _ => true
  | .timeoutError => true
  | .otherError _ => false

/-- `BaseScraper.max_retries` class attribute. -/
def BaseScraper.max_retries : Nat := 3

/-- `BaseScraper.retry_wait_min` class attribute (1.0 seconds). -/
def BaseScraper.retry_wait_min : Nat := 1

/-- `BaseScraper.retry_wait_max` class attribute (30.0 seconds). -/
def BaseScraper.retry_wait_max : Nat := 30

/-- tenacity `wait_exponential(multiplier, min, max)`: the wait before
the retry following attempt `attempt_number` is
`multiplier * 2 ^ attempt_number` clamped into `[wmin, wmax]`. -/
def wait_exponential (multiplier wmin wmax attempt_number : Nat) : Nat :=
  max wmin (min (multiplier * 2 ^ attempt_number) wmax)

/-- tenacity retry driver for `BaseScraper.fetch`: run attempt `n`
(1-based); on success stop; on a transient error with attempts left,
record the exponential wait and retry; otherwise fail with the raised
error.  `fuel` is the number of further attempts `stop_after_attempt`
still allows.  Returns the recorded waits and the final outcome. -/
def fetchRetryAux (attempt : Nat → Except FetchErr RawDocument) :
    Nat → Nat → List Nat × Except FetchErr RawDocument
  | n, fuel =>
    match attempt n with
    | .ok doc => ([], .ok doc)
    | .error e =>
      if e.is_transient then
        match fuel with
        | 0 => ([], .error e)
        | fuel' + 1 =>
          let r := fetchRetryAux attempt (n + 1) fuel'
          (wait_exponential 1 1 30 n :: r.1, r.2)
      else ([], .error e)

/-- `BaseScraper.fetch` under its decorator
`@retry(retry=retry_if_exception_type((HTTPStatusError, TimeoutException)),
stop=stop_after_attempt(3), wait=wait_exponential(multiplier=1, min=1,
max=30))`.  The body of one attempt (cache lookup, rate-limited HTTP
GET, `raise_for_status`, cache write) is abstracted as the `attempt`
outcome function; the decorator's constants coincide with the
`max_retries` / `retry_wait_min` / `retry_wait_max` class attributes. -/
def BaseScraper.fetch (attempt : Nat → Except FetchErr RawDocument) :
    List Nat × Except FetchErr RawDocument :=
  fetchRetryAux attempt 1 (BaseScraper.max_retries - 1)

/-! ### processors/pipeline.py -/

/-- `PipelineStats` dataclass. -/
structure PipelineStats where
  events_scraped : Nat := 0
  chunks_created : Nat := 0
  chunks_filtered : Nat := 0
  chunks_retained : Nat := 0
  snippets_embedded : Nat := 0
  snippets_uploaded : Nat := 0
  snippets_skipped : Nat := 0
  errors : Nat := 0
deriving DecidableEq, Repr

/-- `EmbeddingError`: failure of the embedding collaborator. -/
inductive EmbeddingError where
  | providerFailure (msg : String)
deriving DecidableEq, Repr

/-- `UploadError`: failure of the storage collaborator's batch
mutation. -/
inductive UploadError where
  | uploadFailure (msg : String)
deriving DecidableEq, Repr

/-- `Pipeline` configuration (constructor arguments that the `run`
method reads). -/
structure Pipeline where
  batch_size : Nat
  chunk_size : Nat
  chunk_overlap : Nat
  use_llm_filter : Bool
deriving DecidableEq, Repr

/-- The chunker the pipeline constructs:
`TextChunker(chunk_size=chunk_size, chunk_overlap=chunk_overlap)` with
the default `min_chunk_size=100`. -/
def Pipeline.chunker (p : Pipeline) : TextChunker :=
  ⟨p.chunk_size, p.chunk_overlap, 100⟩

/-- The `ProcessedSnippet(...)` constructor call in the embed phase of
`Pipeline.run` (lines 167-180), followed by `__post_init__`.  `source`
is the literal `"wikipedia"`; the scraper's name does not occur in the
construction.  `md5hex` is the external MD5 hex digest. -/
def mkProcessedSnippet (md5hex : String → String) (chunk : Chunk)
    (filtered_content : String) (embedding : List Int) : ProcessedSnippet :=
  ProcessedSnippet.post_init md5hex
    { content := filtered_content,
      embedding := embedding,
      event_date := chunk.event_date,
      publication_date := chunk.publication_date,
      source := "wikipedia",
      source_url := some chunk.source_url,
      region := chunk.region,
      tags := chunk.tags,
      title :=
        if 1 < chunk.total_chunks then
          some (chunk.parent_title ++ " [" ++ toString (chunk.chunk_index + 1)
            ++ "/" ++ toString chunk.total_chunks ++ "]")
        else some chunk.parent_title,
      participants := some chunk.participants,
      content_hash := none }

/-- One iteration of the embed-upload loop of `Pipeline.run`
(lines 162-201), over the state `(stats, batch)`.  The whole body runs
inside `try`: a failure of the embedding call, or of a mid-loop batch
upload, is caught by `except Exception`, which increments `errors` and
leaves the partially-updated state (in particular an upload failure
keeps the already-appended snippet in `batch` and the already-counted
`snippets_embedded`). -/
def processPair (p : Pipeline) (dry_run : Bool) (md5hex : String → String)
    (embed : String → Except EmbeddingError (List Int))
    (upload : List ProcessedSnippet → Except UploadError (Nat × Nat))
    (acc : PipelineStats × List ProcessedSnippet) (pair : Chunk × String) :
    PipelineStats × List ProcessedSnippet :=
  let stats := acc.1
  let batch := acc.2
  let chunk := pair.1
  let filtered_content := pair.2
  match embed filtered_content with
  | .error _ => ({ stats with errors := stats.errors + 1 }, batch)
  | .ok embedding =>
    let snippet := mkProcessedSnippet md5hex chunk filtered_content embedding
    let batch := batch ++ [snippet]
    let stats := { stats with snippets_embedded := stats.snippets_embedded + 1 }
    if p.batch_size ≤ batch.length then
      if dry_run then
        ({ stats with snippets_uploaded := stats.snippets_uploaded + batch.length }, [])
      else
        match upload batch with
        | .ok insSkip =>
          ({ stats with
              snippets_uploaded := stats.snippets_uploaded + insSkip.1,
              snippets_skipped := stats.snippets_skipped + insSkip.2 }, [])
        | .error _ => ({ stats with errors := stats.errors + 1 }, batch)
    else (stats, batch)

/-- Phase 4 of `Pipeline.run` (lines 155-213): the embed-upload loop
followed by the final-batch upload.  The final upload (lines 204-210)
runs outside any `try`, so its failure propagates out of `run`. -/
def phase4 (p : Pipeline) (dry_run : Bool) (md5hex : String → String)
    (embed : String → Except EmbeddingError (List Int))
    (upload : List ProcessedSnippet → Except UploadError (Nat × Nat))
    (filtered_chunks : List (Chunk × String)) (stats0 : PipelineStats) :
    Except UploadError PipelineStats :=
  let st := filtered_chunks.foldl (processPair p dry_run md5hex embed upload)
    (stats0, [])
  let stats := st.1
  let batch := st.2
  if batch = [] then .ok stats
  else if dry_run then
    .ok { stats with snippets_uploaded := stats.snippets_uploaded + batch.length }
  else
    match upload batch with
    | .ok insSkip =>
      .ok { stats with
        snippets_uploaded := stats.snippets_uploaded + insSkip.1,
        snippets_skipped := stats.snippets_skipped + insSkip.2 }
    | .error e => .error e

/-- `Pipeline.run` over already-scraped events (the scrape phase is the
source collaborator; `events` is the drained stream, so
`events_scraped = len(events)`).  `filterResp` is `some resp` when an
`LLMFilter` can be constructed with external behaviour `resp`, and
`none` when its constructor raises `ValueError` (no API key), which the
run catches by falling back to pass-through. -/
def Pipeline.run (p : Pipeline) (dry_run : Bool) (md5hex : String → String)
    (embed : String → Except EmbeddingError (List Int))
    (upload : List ProcessedSnippet → Except UploadError (Nat × Nat))
    (filterResp : Option (Chunk → Except FilterError String))
    (events : List HistoricalEvent) : Except UploadError PipelineStats :=
  let stats0 : PipelineStats := { events_scraped := events.length }
  if events = [] then .ok stats0
  else
    let all_chunks := events.flatMap fun ev => p.chunker.chunk_event ev
    let stats1 := { stats0 with chunks_created := all_chunks.length }
    let phase3 : List (Chunk × String) × PipelineStats :=
      if p.use_llm_filter then
        match filterResp with
        | some resp =>
          let filtered_chunks := LLMFilter.filter_chunks resp all_chunks false
          (filtered_chunks,
           { stats1 with
              chunks_filtered := all_chunks.length - filtered_chunks.length,
              chunks_retained := filtered_chunks.length })
        | none =>
          (all_chunks.map fun chunk => (chunk, chunk.content),
           { stats1 with chunks_retained := all_chunks.length })
      else
        (all_chunks.map fun chunk => (chunk, chunk.content),
         { stats1 with chunks_retained := all_chunks.length })
    if phase3.1 = [] then .ok phase3.2
    else phase4 p dry_run md5hex embed upload phase3.1 phase3.2

/-! ### Helper lemmas: overlap bound -/

theorem pyJoin_length : ∀ (l : List String), l ≠ [] →
    (pyJoin l).length = (l.map String.length).sum + (l.length - 1)
  | [], h => absurd rfl h
  | [s], _ => by simp [pyJoin]
  | s :: t :: rest, _ => by
    have ih := pyJoin_length (t :: rest) (by simp)
    have hsp : (" " : String).length = 1 := rfl
    simp only [pyJoin, String.length_append, hsp, List.map_cons, List.sum_cons,
      List.length_cons] at ih ⊢
    omega

theorem selectOverlapRev_bound (co : Nat) :
    ∀ (rest : List String) (total : Nat),
      selectOverlapRev co total rest ≠ [] →
      total + ((selectOverlapRev co total rest).map String.length).sum
        + ((selectOverlapRev co total rest).length - 1) ≤ co
  | [], _, h => absurd rfl h
  | s :: rest, total, h => by
    by_cases hc : total + s.length ≤ co
    · rw [selectOverlapRev, if_pos hc]
      by_cases h2 : selectOverlapRev co (total + s.length + 1) rest = []
      · simp [h2]
        omega
      · have ih := selectOverlapRev_bound co rest (total + s.length + 1) h2
        have hpos : 0 < (selectOverlapRev co (total + s.length + 1) rest).length :=
          List.length_pos.mpr h2
        simp only [List.map_cons, List.sum_cons, List.length_cons]
        omega
    · rw [selectOverlapRev, if_neg hc] at h
      exact absurd rfl h

/-- C2.  Overlap bound: for every list of sentences, the overlap string
produced by `_get_overlap_sentences` (the trailing whole sentences
selected working backward, stopping at the first sentence that would
overflow, joined by single spaces) has length at most `chunk_overlap`;
hence the overlap text seeded into each next chunk during
`_group_sentences` (which is exactly `get_overlap_sentences` applied to
the closed chunk's sentences) never exceeds `chunk_overlap`
characters. -/
theorem overlap_length_le_chunk_overlap (ck : TextChunker)
    (sentences : List String) :
    (ck.get_overlap_sentences sentences).length ≤ ck.chunk_overlap := by
  unfold TextChunker.get_overlap_sentences
  by_cases h : selectOverlapRev ck.chunk_overlap 0 sentences.reverse = []
  · simp [h, pyJoin]
  · have hrev : (selectOverlapRev ck.chunk_overlap 0 sentences.reverse).reverse ≠ [] := by
      simpa using h
    rw [pyJoin_length _ hrev]
    have hb := selectOverlapRev_bound ck.chunk_overlap sentences.reverse 0 h
    rw [List.map_reverse, List.sum_reverse, List.length_reverse]
    omega

/-! ### Helper lemmas: chunk_event shape -/

/-- The chunk texts `chunk_event` wraps: the stripped content itself in
the small branch, the grouped sentence chunks otherwise. -/
def chunkTexts (ck : TextChunker) (ev : HistoricalEvent) : List String :=
  let content := pyStrip ev.content
  if content.length ≤ ck.chunk_size then [content]
  else ck.group_sentences (split_sentences content.data)

theorem chunk_event_eq (ck : TextChunker) (ev : HistoricalEvent) :
    ck.chunk_event ev = (chunkTexts ck ev).enum.map fun p =>
      { content := p.2, chunk_index := p.1,
        total_chunks := (chunkTexts ck ev).length,
        parent_title := ev.title,
        event_date := ev.event_timestamp,
        publication_date := ev.publication_timestamp,
        source_url := ev.source_url, region := ev.region,
        tags := ev.tags, participants := ev.participants } := by
  unfold TextChunker.chunk_event chunkTexts
  by_cases h : (pyStrip ev.content).length ≤ ck.chunk_size
  · simp [h, List.enum]
  · simp [h]

/-- C3.  Chunk metadata invariant: every chunk returned by `chunk_event`
has `chunk_index` equal to its position (hence `0 ≤ chunk_index <
total_chunks`), `total_chunks` equal to the length of the returned
list, and `parent_title`, `event_date`, `publication_date`,
`source_url`, `region`, `tags`, `participants` equal to the parent
event's values — so identical across all chunks of the event. -/
theorem chunk_event_metadata_invariant (ck : TextChunker)
    (ev : HistoricalEvent) (i : Nat) (h : i < (ck.chunk_event ev).length) :
    (ck.chunk_event ev)[i].chunk_index = i ∧
    (ck.chunk_event ev)[i].total_chunks = (ck.chunk_event ev).length ∧
    (ck.chunk_event ev)[i].parent_title = ev.title ∧
    (ck.chunk_event ev)[i].event_date = ev.event_timestamp ∧
    (ck.chunk_event ev)[i].publication_date = ev.publication_timestamp ∧
    (ck.chunk_event ev)[i].source_url = ev.source_url ∧
    (ck.chunk_event ev)[i].region = ev.region ∧
    (ck.chunk_event ev)[i].tags = ev.tags ∧
    (ck.chunk_event ev)[i].participants = ev.participants := by
  simp only [chunk_event_eq ck ev, List.length_map, List.enum_length] at h ⊢
  simp [List.getElem_map, List.getElem_enum]

/-- C4.  Chunk round-trip: when the stripped content fits in
`chunk_size`, `chunk_event` returns exactly one chunk whose content is
the stripped original, with index 0 of 1 and full inherited
metadata. -/
theorem chunk_event_round_trip (ck : TextChunker) (ev : HistoricalEvent)
    (h : (pyStrip ev.content).length ≤ ck.chunk_size) :
    ck.chunk_event ev =
      [{ content := pyStrip ev.content, chunk_index := 0, total_chunks := 1,
         parent_title := ev.title, event_date := ev.event_timestamp,
         publication_date := ev.publication_timestamp,
         source_url := ev.source_url, region := ev.region,
         tags := ev.tags, participants := ev.participants }] := by
  simp [TextChunker.chunk_event, h]

/-- Concrete chunker for witnesses: the pipeline's defaults. -/
def ckW : TextChunker := ⟨500, 100, 100⟩

/-- Concrete event for witnesses. -/
def evW : HistoricalEvent :=
  ⟨"Siege of the City", "  The city fell. ", 100, 200, ["Ottoman Empire"],
   .siege, "Thrace", "http://example.org", ["war"]⟩

theorem chunk_event_metadata_invariant_witness :
    0 < (ckW.chunk_event evW).length ∧
    ((ckW.chunk_event evW).get ⟨0, by decide⟩).chunk_index = 0 ∧
    ((ckW.chunk_event evW).get ⟨0, by decide⟩).tags = evW.tags := by
  refine ⟨by decide, ?_, ?_⟩
  · exact (chunk_event_metadata_invariant ckW evW 0 (by decide)).1
  · exact (chunk_event_metadata_invariant ckW evW 0 (by decide)).2.2.2.2.2.2.2.1

theorem chunk_event_round_trip_witness :
    (pyStrip evW.content).length ≤ ckW.chunk_size ∧
    ckW.chunk_event evW =
      [{ content := pyStrip evW.content, chunk_index := 0, total_chunks := 1,
         parent_title := evW.title, event_date := evW.event_timestamp,
         publication_date := evW.publication_timestamp,
         source_url := evW.source_url, region := evW.region,
         tags := evW.tags, participants := evW.participants }] :=
  ⟨by decide, chunk_event_round_trip ckW evW (by decide)⟩

/-! ### Helper lemmas: non-emptiness of the splitting branch -/

theorem mem_dropWhile_of_not {α : Type} (p : α → Bool) (l : List α) (c : α)
    (hc : c ∈ l) (hp : p c = false) : c ∈ l.dropWhile p := by
  have := List.takeWhile_append_dropWhile p l
  rw [← this] at hc
  rcases List.mem_append.mp hc with h | h
  · exact absurd (List.mem_takeWhile_imp h) (by simp [hp])
  · exact h

theorem trimChars_ne_nil (l : List Char) (h : ∃ c ∈ l, pyIsSpace c = false) :
    trimChars l ≠ [] := by
  obtain ⟨c, hc, hcw⟩ := h
  have h1 : c ∈ l.dropWhile pyIsSpace := mem_dropWhile_of_not _ _ _ hc hcw
  have h2 : c ∈ (l.dropWhile pyIsSpace).reverse := List.mem_reverse.mpr h1
  have h3 : c ∈ (l.dropWhile pyIsSpace).reverse.dropWhile pyIsSpace :=
    mem_dropWhile_of_not _ _ _ h2 hcw
  have h4 : c ∈ trimChars l := List.mem_reverse.mpr h3
  intro hnil
  rw [hnil] at h4
  exact absurd h4 (List.not_mem_nil c)

theorem trimChars_hasNonWs (l : List Char) (h : trimChars l ≠ []) :
    ∃ c ∈ trimChars l, pyIsSpace c = false := by
  have hb : (l.dropWhile pyIsSpace).reverse.dropWhile pyIsSpace ≠ [] := by
    intro hnil
    exact h (by simp [trimChars, hnil])
  refine ⟨((l.dropWhile pyIsSpace).reverse.dropWhile pyIsSpace).head hb, ?_, ?_⟩
  · exact List.mem_reverse.mpr (List.head_mem hb)
  · exact List.head_dropWhile_not pyIsSpace _ hb

theorem replaceFuel_hasNonWs (pat rep : List Char) (hrep : rep ≠ [])
    (hrepws : ∀ c ∈ rep, pyIsSpace c = false) :
    ∀ (fuel : Nat) (s : List Char), (∃ c ∈ s, pyIsSpace c = false) →
    ∃ c ∈ replaceFuel pat rep fuel s, pyIsSpace c = false := by
  intro fuel
  induction fuel with
  | zero =>
    intro s hs
    cases s with
    | nil => exact hs
    | cons c rest => exact hs
  | succ fuel ih =>
    intro s hs
    cases s with
    | nil => exact hs
    | cons c rest =>
      cases pat with
      | nil => exact hs
      | cons p ps =>
        rw [replaceFuel]
        by_cases hpre : (p :: ps).isPrefixOf (c :: rest) = true
        · rw [if_pos hpre]
          obtain ⟨d, hd⟩ := List.exists_mem_of_ne_nil rep hrep
          exact ⟨d, List.mem_append.mpr (Or.inl hd), hrepws d hd⟩
        · rw [if_neg hpre]
          obtain ⟨d, hdm, hdw⟩ := hs
          rcases List.mem_cons.mp hdm with hdc | hdr
          · exact ⟨d, by simp [hdc], hdw⟩
          · obtain ⟨e, hem, hew⟩ := ih rest ⟨d, hdr, hdw⟩
            exact ⟨e, List.mem_cons_of_mem c hem, hew⟩

theorem replaceChars_hasNonWs (pat rep s : List Char) (hrep : rep ≠ [])
    (hrepws : ∀ c ∈ rep, pyIsSpace c = false)
    (hs : ∃ c ∈ s, pyIsSpace c = false) :
    ∃ c ∈ replaceChars pat rep s, pyIsSpace c = false :=
  replaceFuel_hasNonWs pat rep hrep hrepws s.length s hs

theorem protectText_hasNonWs (s : List Char)
    (hs : ∃ c ∈ s, pyIsSpace c = false) :
    ∃ c ∈ protectText s, pyIsSpace c = false := by
  have hcond : ∀ ab ∈ abbreviations, (protectedForm ab).data ≠ [] ∧
      ∀ c ∈ (protectedForm ab).data, pyIsSpace c = false := by decide
  unfold protectText
  revert hcond
  generalize abbreviations = l
  induction l generalizing s with
  | nil => intro _; exact hs
  | cons ab rest ih =>
    intro hcond
    rw [List.foldl_cons]
    refine ih _ ?_ (fun x hx => hcond x (List.mem_cons_of_mem ab hx))
    have hc := hcond ab (List.mem_cons_self ab rest)
    exact replaceChars_hasNonWs _ _ _ hc.1 hc.2 hs

theorem regexSplitFuel_cover (ch : Char) (hw : pyIsSpace ch = false) :
    ∀ (fuel : Nat) (cur input : List Char), (ch ∈ cur ∨ ch ∈ input) →
    ∃ p ∈ regexSplitFuel fuel cur input, ch ∈ p := by
  intro fuel
  induction fuel with
  | zero =>
    intro cur input hm
    refine ⟨cur.reverse ++ input, by simp [regexSplitFuel], ?_⟩
    rcases hm with h | h
    · exact List.mem_append.mpr (Or.inl (List.mem_reverse.mpr h))
    · exact List.mem_append.mpr (Or.inr h)
  | succ fuel ih =>
    intro cur input hm
    cases input with
    | nil =>
      rcases hm with h | h
      · exact ⟨cur.reverse, by simp [regexSplitFuel], List.mem_reverse.mpr h⟩
      · exact absurd h (List.not_mem_nil ch)
    | cons c rest =>
      have hnext : ch ∈ c :: cur ∨ ch ∈ rest := by
        rcases hm with h | h
        · exact Or.inl (List.mem_cons_of_mem c h)
        · rcases List.mem_cons.mp h with hc | hr
          · exact Or.inl (by simp [hc])
          · exact Or.inr hr
      rw [regexSplitFuel]
      by_cases hse : sentEnd c = true
      · rw [if_pos hse]
        cases hh : (rest.dropWhile pyIsSpace).head? with
        | none => simpa only [hh] using ih (c :: cur) rest hnext
        | some d =>
          simp only [hh]
          by_cases hcnd : rest.takeWhile pyIsSpace ≠ [] ∧ isUpperAZ d = true
          · rw [if_pos hcnd]
            rcases hm with h | h
            · exact ⟨(c :: cur).reverse, by simp,
                List.mem_reverse.mpr (List.mem_cons_of_mem c h)⟩
            · rcases List.mem_cons.mp h with hc | hr
              · exact ⟨(c :: cur).reverse, by simp,
                  List.mem_reverse.mpr (by simp [hc])⟩
              · have hr' : ch ∈ rest.dropWhile pyIsSpace := by
                  have hsplit := List.takeWhile_append_dropWhile pyIsSpace rest
                  rw [← hsplit] at hr
                  rcases List.mem_append.mp hr with hin | hin
                  · exact absurd (List.mem_takeWhile_imp hin) (by simp [hw])
                  · exact hin
                obtain ⟨p, hp, hchp⟩ := ih [] (rest.dropWhile pyIsSpace)
                  (Or.inr hr')
                exact ⟨p, List.mem_cons_of_mem _ hp, hchp⟩
          · rw [if_neg hcnd]
            exact ih (c :: cur) rest hnext
      · rw [if_neg hse]
        exact ih (c :: cur) rest hnext

theorem regexSplit_cover (cur input : List Char) (ch : Char)
    (hm : ch ∈ cur ∨ ch ∈ input) (hw : pyIsSpace ch = false) :
    ∃ p ∈ regexSplit cur input, ch ∈ p :=
  regexSplitFuel_cover ch hw input.length cur input hm

theorem split_sentences_ne_nil (text : List Char)
    (h : ∃ c ∈ text, pyIsSpace c = false) : split_sentences text ≠ [] := by
  obtain ⟨ch, hchm, hchw⟩ := protectText_hasNonWs text h
  obtain ⟨p, hpm, hchp⟩ :=
    regexSplit_cover [] (protectText text) ch (Or.inr hchm) hchw
  intro hnil
  unfold split_sentences at hnil
  rw [List.filterMap_eq_nil_iff] at hnil
  have hthis := hnil p hpm
  by_cases hr : trimChars (replaceChars [placeholder] ['.'] p) = []
  · have hnw : ∃ c ∈ replaceChars [placeholder] ['.'] p, pyIsSpace c = false :=
      replaceChars_hasNonWs _ _ _ (by simp) (by decide) ⟨ch, hchp, hchw⟩
    exact trimChars_ne_nil _ hnw hr
  · rw [if_neg hr] at hthis
    exact Option.some_ne_none _ hthis

theorem groupStep_current_ne (ck : TextChunker) (st : GroupState)
    (s : String) : (groupStep ck st s).current_chunk ≠ [] := by
  unfold groupStep
  dsimp only
  split
  · split <;> simp
  · simp

theorem foldl_groupStep_current_ne (ck : TextChunker) :
    ∀ (sentences : List String) (st : GroupState), sentences ≠ [] →
    (sentences.foldl (groupStep ck) st).current_chunk ≠ []
  | [], _, h => absurd rfl h
  | [s], st, _ => by
    rw [List.foldl_cons, List.foldl_nil]
    exact groupStep_current_ne ck st s
  | s :: t :: rest, st, _ => by
    rw [List.foldl_cons]
    exact foldl_groupStep_current_ne ck (t :: rest) (groupStep ck st s) (by simp)

theorem mergeLast_ne_nil (f : String) : ∀ (l : List String), mergeLast f l ≠ []
  | [] => by simp [mergeLast]
  | [a] => by simp [mergeLast]
  | _ :: _ :: _ => by rw [mergeLast]; simp

theorem group_sentences_ne_nil (ck : TextChunker) (sentences : List String)
    (h : sentences ≠ []) : ck.group_sentences sentences ≠ [] := by
  unfold TextChunker.group_sentences
  rw [if_neg h]
  have hcur := foldl_groupStep_current_ne ck sentences ⟨[], [], 0⟩ h
  rw [if_pos hcur]
  dsimp only
  split
  · simp
  · exact mergeLast_ne_nil _ _

/-- C9.  Totality and non-emptiness of `chunk_event`: for every event
(including one whose content is empty or only whitespace) the returned
chunk list is non-empty — the small-content branch returns one chunk,
and in the splitting branch the stripped content is longer than
`chunk_size`, hence non-empty after stripping, so sentence splitting
yields at least one non-empty sentence and grouping yields at least one
chunk. -/
theorem chunk_event_ne_nil (ck : TextChunker) (ev : HistoricalEvent) :
    ck.chunk_event ev ≠ [] := by
  unfold TextChunker.chunk_event
  by_cases h : (pyStrip ev.content).length ≤ ck.chunk_size
  · simp [h]
  · have hlenpos : 0 < (pyStrip ev.content).length := by omega
    have hne : (pyStrip ev.content).data ≠ [] := by
      intro h0
      rw [show (pyStrip ev.content).length = (pyStrip ev.content).data.length
        from rfl, h0] at hlenpos
      simp at hlenpos
    have hnw : ∃ c ∈ trimChars ev.content.data, pyIsSpace c = false :=
      trimChars_hasNonWs ev.content.data hne
    have hs := split_sentences_ne_nil (pyStrip ev.content).data hnw
    have hg := group_sentences_ne_nil ck _ hs
    simp only [h, if_false]
    intro hmapnil
    rw [List.map_eq_nil_iff] at hmapnil
    exact hg (by simpa using congrArg List.length hmapnil)

/-- Witness for C9: a concrete event (whitespace-only content) on which
`chunk_event` returns a non-empty list. -/
theorem chunk_event_ne_nil_witness :
    ckW.chunk_event ⟨"Empty", "   ", 0, 0, [], .other, "r", "u", []⟩ ≠ [] :=
  chunk_event_ne_nil ckW ⟨"Empty", "   ", 0, 0, [], .other, "r", "u", []⟩

/-! ### Helper lemmas: filter_chunks shape -/

/-- What `filter_chunks` contributes for one chunk: nothing when the
filter result says `removed_entirely`, the retained pair otherwise. -/
def keepPair (resp : Chunk → Except FilterError String) (chunk : Chunk) :
    Option (Chunk × String) :=
  let result := LLMFilter.filter_chunk resp chunk
  if result.removed_entirely then none else some (chunk, result.filtered_content)

theorem processBatch_eq_filterMap (resp : Chunk → Except FilterError String) :
    ∀ (batch : List Chunk) (acc : List (Chunk × String)),
    batch.foldl
      (fun acc chunk =>
        let result := LLMFilter.filter_chunk resp chunk
        if result.removed_entirely then acc
        else acc ++ [(chunk, result.filtered_content)])
      acc = acc ++ batch.filterMap (keepPair resp)
  | [], acc => by simp
  | c :: rest, acc => by
    rw [List.foldl_cons, List.filterMap_cons]
    by_cases hr : (LLMFilter.filter_chunk resp c).removed_entirely = true
    · simp only [keepPair, hr, if_true, if_pos hr]
      exact processBatch_eq_filterMap resp rest acc
    · simp only [keepPair, hr, if_neg hr, Bool.false_eq_true, if_false]
      rw [processBatch_eq_filterMap resp rest (acc ++ [(c, _)])]
      simp

theorem toBatchesFuel_foldl (resp : Chunk → Except FilterError String) :
    ∀ (fuel : Nat) (l : List Chunk) (acc : List (Chunk × String)),
    l.length ≤ fuel →
    (toBatchesFuel fuel l).foldl (fun acc batch => acc ++ processBatch resp batch) acc
      = acc ++ l.filterMap (keepPair resp)
  | fuel, [], acc, _ => by cases fuel <;> simp [toBatchesFuel]
  | 0, c :: rest, acc, hle => by simp at hle
  | fuel + 1, c :: rest, acc, hle => by
    rw [toBatchesFuel, List.foldl_cons]
    have hlen : ((c :: rest).drop filterBatchSize).length ≤ fuel := by
      simp only [List.length_drop, List.length_cons]
      simp only [List.length_cons] at hle
      simp [filterBatchSize]
      omega
    rw [toBatchesFuel_foldl resp fuel _ _ hlen]
    rw [processBatch, processBatch_eq_filterMap resp _ []]
    rw [List.nil_append, List.append_assoc, ← List.filterMap_append,
      List.take_append_drop]

theorem filter_chunks_eq_filterMap (resp : Chunk → Except FilterError String)
    (chunks : List Chunk) :
    LLMFilter.filter_chunks resp chunks false = chunks.filterMap (keepPair resp) := by
  unfold LLMFilter.filter_chunks toBatches
  rw [if_neg (by simp)]
  exact toBatchesFuel_foldl resp chunks.length chunks [] le_rfl

theorem filter_chunk_on_error (resp : Chunk → Except FilterError String)
    (chunk : Chunk) (e : FilterError) (he : resp chunk = .error e) :
    LLMFilter.filter_chunk resp chunk =
      { original_content := chunk.content, filtered_content := chunk.content,
        was_modified := false, removed_entirely := false } := by
  unfold LLMFilter.filter_chunk
  rw [he]

theorem filterMap_if_not_eq_filter_map {α β : Type} (q : α → Bool) (g : α → β) :
    ∀ (l : List α),
    l.filterMap (fun c => if q c then none else some (g c))
      = (l.filter fun c => !q c).map g
  | [] => by simp
  | c :: rest => by
    rw [List.filterMap_cons, List.filter_cons]
    by_cases hq : q c = true
    · simp only [hq, if_true, Bool.not_true, Bool.false_eq_true, if_false]
      exact filterMap_if_not_eq_filter_map q g rest
    · simp only [hq, Bool.false_eq_true, if_false, Bool.not_false, if_true,
        List.map_cons]
      rw [filterMap_if_not_eq_filter_map q g rest]

theorem length_filterMap_keepPair (resp : Chunk → Except FilterError String) :
    ∀ (chunks : List Chunk),
    (chunks.filterMap (keepPair resp)).length
      = chunks.countP fun c => !(LLMFilter.filter_chunk resp c).removed_entirely
  | [] => by simp
  | c :: rest => by
    rw [List.filterMap_cons, List.countP_cons]
    by_cases hr : (LLMFilter.filter_chunk resp c).removed_entirely = true
    · simp only [keepPair, hr, if_true, Bool.not_true, Bool.false_eq_true,
        if_false, Nat.add_zero]
      exact length_filterMap_keepPair resp rest
    · simp only [keepPair, hr, Bool.false_eq_true, if_false, Bool.not_false,
        if_true, List.length_cons]
      rw [length_filterMap_keepPair resp rest]

/-- C1.  Fail-open filtering: when every external filter call fails
(HTTP status error or any other exception), `filter_chunks` returns
exactly one `(chunk, content)` pair per input chunk, in input order,
with the chunk's original content — no chunk dropped — and each
per-chunk `FilterResult` has `was_modified = false` and
`removed_entirely = false`. -/
theorem filter_chunks_fail_open (resp : Chunk → Except FilterError String)
    (chunks : List Chunk) (herr : ∀ c ∈ chunks, ∃ e, resp c = .error e) :
    LLMFilter.filter_chunks resp chunks false
      = chunks.map (fun chunk => (chunk, chunk.content)) ∧
    ∀ c ∈ chunks, (LLMFilter.filter_chunk resp c).was_modified = false ∧
      (LLMFilter.filter_chunk resp c).removed_entirely = false := by
  constructor
  · rw [filter_chunks_eq_filterMap]
    induction chunks with
    | nil => simp
    | cons c rest ih =>
      obtain ⟨e, he⟩ := herr c (List.mem_cons_self c rest)
      rw [List.filterMap_cons, List.map_cons]
      have hk : keepPair resp c = some (c, c.content) := by
        simp [keepPair, filter_chunk_on_error resp c e he]
      rw [hk, ih (fun x hx => herr x (List.mem_cons_of_mem c hx))]
  · intro c hc
    obtain ⟨e, he⟩ := herr c hc
    rw [filter_chunk_on_error resp c e he]
    exact ⟨rfl, rfl⟩

/-- Concrete chunks and always-failing collaborator for the C1
witness. -/
def chunkA : Chunk := ⟨"Alpha beta.", 0, 2, "T", 1, 2, "u", "r", ["t"], ["p"]⟩

/-- Second concrete chunk for witnesses. -/
def chunkB : Chunk := ⟨"Gamma delta.", 1, 2, "T", 1, 2, "u", "r", ["t"], ["p"]⟩

/-- A filter collaborator whose every call raises. -/
def respFail (c : Chunk) : Except FilterError String :=
  if c.chunk_index = 0 then .error (.httpStatus 500) else .error (.other "boom")

theorem filter_chunks_fail_open_witness :
    LLMFilter.filter_chunks respFail [chunkA, chunkB] false
      = [(chunkA, chunkA.content), (chunkB, chunkB.content)] ∧
    (LLMFilter.filter_chunk respFail chunkA).was_modified = false ∧
    (LLMFilter.filter_chunk respFail chunkA).removed_entirely = false := by
  have h := filter_chunks_fail_open respFail [chunkA, chunkB]
    (by
      intro c hc
      rcases List.mem_cons.mp hc with h1 | h1
      · exact ⟨.httpStatus 500, by rw [h1]; rfl⟩
      · rcases List.mem_cons.mp h1 with h2 | h2
        · exact ⟨.other "boom", by rw [h2]; rfl⟩
        · exact absurd h2 (List.not_mem_nil c))
  refine ⟨by rw [h.1]; rfl, ?_, ?_⟩
  · exact (h.2 chunkA (by simp)).1
  · exact (h.2 chunkA (by simp)).2

/-! ### Helper lemmas: sentinel interpretation and pipeline stats -/

theorem filter_chunk_on_ok (resp : Chunk → Except FilterError String)
    (chunk : Chunk) (s : String) (hs : resp chunk = .ok s) :
    ((LLMFilter.filter_chunk resp chunk).removed_entirely = true ↔
      (pyStrip s = "NO_CONTENT" ∨ pyStrip s = "")) := by
  unfold LLMFilter.filter_chunk
  rw [hs]
  dsimp only
  simp [Bool.or_eq_true, beq_iff_eq]

theorem countP_not_add_countP {α : Type} (p : α → Bool) :
    ∀ l : List α, l.countP (fun a => !p a) + l.countP p = l.length
  | [] => by simp
  | a :: rest => by
    rw [List.countP_cons, List.countP_cons, List.length_cons]
    have ih := countP_not_add_countP p rest
    by_cases hp : p a = true <;> simp [hp] <;> omega

theorem processPair_preserves (p : Pipeline) (dry : Bool)
    (md5hex : String → String) (embed : String → Except EmbeddingError (List Int))
    (upload : List ProcessedSnippet → Except UploadError (Nat × Nat))
    (acc : PipelineStats × List ProcessedSnippet) (pair : Chunk × String) :
    (processPair p dry md5hex embed upload acc pair).1.chunks_created
        = acc.1.chunks_created ∧
    (processPair p dry md5hex embed upload acc pair).1.chunks_filtered
        = acc.1.chunks_filtered ∧
    (processPair p dry md5hex embed upload acc pair).1.chunks_retained
        = acc.1.chunks_retained := by
  unfold processPair
  dsimp only
  cases hm : embed pair.2 with
  | error e => exact ⟨rfl, rfl, rfl⟩
  | ok emb =>
    dsimp only
    by_cases hb : p.batch_size ≤ (acc.2 ++ [mkProcessedSnippet md5hex pair.1 pair.2 emb]).length
    · rw [if_pos hb]
      cases dry with
      | true =>
        rw [if_pos rfl]
        exact ⟨rfl, rfl, rfl⟩
      | false =>
        rw [if_neg (by simp)]
        cases upload (acc.2 ++ [mkProcessedSnippet md5hex pair.1 pair.2 emb]) with
        | ok insSkip => exact ⟨rfl, rfl, rfl⟩
        | error e => exact ⟨rfl, rfl, rfl⟩
    · rw [if_neg hb]
      exact ⟨rfl, rfl, rfl⟩

theorem foldl_processPair_preserves (p : Pipeline) (dry : Bool)
    (md5hex : String → String) (embed : String → Except EmbeddingError (List Int))
    (upload : List ProcessedSnippet → Except UploadError (Nat × Nat)) :
    ∀ (pairs : List (Chunk × String)) (acc : PipelineStats × List ProcessedSnippet),
    (pairs.foldl (processPair p dry md5hex embed upload) acc).1.chunks_created
        = acc.1.chunks_created ∧
    (pairs.foldl (processPair p dry md5hex embed upload) acc).1.chunks_filtered
        = acc.1.chunks_filtered ∧
    (pairs.foldl (processPair p dry md5hex embed upload) acc).1.chunks_retained
        = acc.1.chunks_retained
  | [], acc => ⟨rfl, rfl, rfl⟩
  | pr :: rest, acc => by
    rw [List.foldl_cons]
    have h1 := processPair_preserves p dry md5hex embed upload acc pr
    have h2 := foldl_processPair_preserves p dry md5hex embed upload rest
      (processPair p dry md5hex embed upload acc pr)
    exact ⟨h2.1.trans h1.1, h2.2.1.trans h1.2.1, h2.2.2.trans h1.2.2⟩

theorem phase4_ok_preserves (p : Pipeline) (dry : Bool)
    (md5hex : String → String) (embed : String → Except EmbeddingError (List Int))
    (upload : List ProcessedSnippet → Except UploadError (Nat × Nat))
    (pairs : List (Chunk × String)) (stats0 stats : PipelineStats)
    (h : phase4 p dry md5hex embed upload pairs stats0 = .ok stats) :
    stats.chunks_created = stats0.chunks_created ∧
    stats.chunks_filtered = stats0.chunks_filtered ∧
    stats.chunks_retained = stats0.chunks_retained := by
  have hp := foldl_processPair_preserves p dry md5hex embed upload pairs (stats0, [])
  unfold phase4 at h
  dsimp only at h
  split at h
  · cases h
    exact hp
  · split at h
    · cases h
      exact hp
    · split at h
      · cases h
        exact hp
      · exact absurd h (by simp)

theorem run_filter_accounting (p : Pipeline) (dry : Bool)
    (md5hex : String → String) (embed : String → Except EmbeddingError (List Int))
    (upload : List ProcessedSnippet → Except UploadError (Nat × Nat))
    (resp : Chunk → Except FilterError String) (events : List HistoricalEvent)
    (stats : PipelineStats) (hllm : p.use_llm_filter = true)
    (hrun : p.run dry md5hex embed upload (some resp) events = .ok stats) :
    stats.chunks_created
        = (events.flatMap fun ev => p.chunker.chunk_event ev).length ∧
    stats.chunks_retained
        = (LLMFilter.filter_chunks resp
            (events.flatMap fun ev => p.chunker.chunk_event ev) false).length ∧
    stats.chunks_filtered = stats.chunks_created - stats.chunks_retained := by
  by_cases hev : events = []
  · subst hev
    have hempty : p.run dry md5hex embed upload (some resp) [] =
        .ok { events_scraped := 0 } := rfl
    rw [hempty] at hrun
    simp only [Except.ok.injEq] at hrun
    subst hrun
    exact ⟨rfl, rfl, rfl⟩
  · simp only [Pipeline.run, if_neg hev, hllm, eq_self_iff_true, if_true] at hrun
    by_cases hfc : LLMFilter.filter_chunks resp
        (events.flatMap fun ev => p.chunker.chunk_event ev) false = []
    · rw [if_pos hfc] at hrun
      simp only [Except.ok.injEq] at hrun
      subst hrun
      exact ⟨rfl, rfl, rfl⟩
    · rw [if_neg hfc] at hrun
      have hpres := phase4_ok_preserves p dry md5hex embed upload _ _ _ hrun
      rw [hpres.1, hpres.2.1, hpres.2.2]
      exact ⟨rfl, rfl, rfl⟩

/-- C5.  Sentinel removal and filter accounting: a chunk whose
(stripped) filter response is the sentinel `"NO_CONTENT"` or empty gets
`removed_entirely = true` and is excluded from `filter_chunks`, while
all other responding chunks are retained (conjuncts 1 and 2); the
number of dropped chunks is the number of removed chunks (conjunct 3);
and in the pipeline `chunks_retained` equals the number of retained
pairs and `chunks_filtered` equals `chunks_created` minus
`chunks_retained` (conjunct 4). -/
theorem filter_sentinel_accounting (resp : Chunk → Except FilterError String)
    (chunks : List Chunk) (p : Pipeline) (dry : Bool)
    (md5hex : String → String) (embed : String → Except EmbeddingError (List Int))
    (upload : List ProcessedSnippet → Except UploadError (Nat × Nat))
    (events : List HistoricalEvent) (stats : PipelineStats)
    (hllm : p.use_llm_filter = true)
    (hrun : p.run dry md5hex embed upload (some resp) events = .ok stats) :
    (∀ c s, resp c = .ok s →
      ((LLMFilter.filter_chunk resp c).removed_entirely = true ↔
        (pyStrip s = "NO_CONTENT" ∨ pyStrip s = ""))) ∧
    LLMFilter.filter_chunks resp chunks false
      = (chunks.filter fun c => !(LLMFilter.filter_chunk resp c).removed_entirely).map
          (fun c => (c, (LLMFilter.filter_chunk resp c).filtered_content)) ∧
    chunks.length - (LLMFilter.filter_chunks resp chunks false).length
      = chunks.countP (fun c => (LLMFilter.filter_chunk resp c).removed_entirely) ∧
    stats.chunks_retained
      = (LLMFilter.filter_chunks resp
          (events.flatMap fun ev => p.chunker.chunk_event ev) false).length ∧
    stats.chunks_filtered = stats.chunks_created - stats.chunks_retained := by
  have hacc := run_filter_accounting p dry md5hex embed upload resp events stats
    hllm hrun
  refine ⟨fun c s hs => filter_chunk_on_ok resp c s hs, ?_, ?_, hacc.2.1, ?_⟩
  · rw [filter_chunks_eq_filterMap]
    exact filterMap_if_not_eq_filter_map
      (fun c => (LLMFilter.filter_chunk resp c).removed_entirely)
      (fun c => (c, (LLMFilter.filter_chunk resp c).filtered_content)) chunks
  · rw [filter_chunks_eq_filterMap, length_filterMap_keepPair]
    have hc := countP_not_add_countP
      (fun c => (LLMFilter.filter_chunk resp c).removed_entirely) chunks
    omega
  · rw [hacc.2.2]

/-- Pipeline configuration for witnesses: defaults with the LLM filter
enabled. -/
def pW : Pipeline := ⟨10, 500, 100, true⟩

/-- Five small events (one chunk each) for the C5 witness. -/
def eventsS : List HistoricalEvent :=
  [⟨"A", "Alpha one.", 1, 1, [], .other, "r", "u", []⟩,
   ⟨"B", "Beta two.", 2, 2, [], .other, "r", "u", []⟩,
   ⟨"C", "Gamma three.", 3, 3, [], .other, "r", "u", []⟩,
   ⟨"D", "Delta four.", 4, 4, [], .other, "r", "u", []⟩,
   ⟨"E", "Epsilon five.", 5, 5, [], .other, "r", "u", []⟩]

/-- A filter collaborator answering the sentinel for the chunks of
events `B` and `D` and echoing the content otherwise. -/
def respS (c : Chunk) : Except FilterError String :=
  if c.parent_title = "B" ∨ c.parent_title = "D" then .ok "NO_CONTENT"
  else .ok c.content

/-- The chunks of the C5 witness events. -/
def chunksS : List Chunk := eventsS.flatMap fun ev => pW.chunker.chunk_event ev

/-- An always-succeeding embedding collaborator. -/
def embedS : String → Except EmbeddingError (List Int) := fun _ => .ok [1]

/-- An upload collaborator inserting every snippet. -/
def uploadS : List ProcessedSnippet → Except UploadError (Nat × Nat) :=
  fun b => .ok (b.length, 0)

/-- A concrete digest function for witnesses. -/
def md5S : String → String := fun _ => "d"

/-- The chunk the sentinel is answered for in the C5 witness. -/
def chunkSB : Chunk := ⟨"Beta two.", 0, 1, "B", 2, 2, "u", "r", [], []⟩

theorem filter_sentinel_accounting_witness :
    ((LLMFilter.filter_chunk respS chunkSB).removed_entirely = true ↔
      (pyStrip "NO_CONTENT" = "NO_CONTENT" ∨ pyStrip "NO_CONTENT" = "")) ∧
    chunksS.length - (LLMFilter.filter_chunks respS chunksS false).length
      = chunksS.countP (fun c => (LLMFilter.filter_chunk respS c).removed_entirely) ∧
    (⟨5, 5, 2, 3, 3, 3, 0, 0⟩ : PipelineStats).chunks_retained
      = (LLMFilter.filter_chunks respS
          (eventsS.flatMap fun ev => pW.chunker.chunk_event ev) false).length ∧
    chunksS.length = 5 ∧
    (LLMFilter.filter_chunks respS chunksS false).length = 3 ∧
    chunksS.countP (fun c => (LLMFilter.filter_chunk respS c).removed_entirely) = 2 := by
  have h := filter_sentinel_accounting respS chunksS pW true md5S embedS uploadS
    eventsS ⟨5, 5, 2, 3, 3, 3, 0, 0⟩ rfl rfl
  exact ⟨h.1 chunkSB "NO_CONTENT" rfl, h.2.2.1, h.2.2.2.1,
    by decide, by decide, by decide⟩

/-! ### Helper lemmas: fetch retry -/

theorem wait_exponential_bounds (k : Nat) :
    1 ≤ wait_exponential 1 1 30 k ∧ wait_exponential 1 1 30 k ≤ 30 := by
  unfold wait_exponential
  exact ⟨Nat.le_max_left _ _, max_le (by omega) (min_le_right _ _)⟩

theorem fetchRetryAux_len (attempt : Nat → Except FetchErr RawDocument) :
    ∀ (fuel n : Nat), (fetchRetryAux attempt n fuel).1.length ≤ fuel := by
  intro fuel
  induction fuel with
  | zero =>
    intro n
    rw [fetchRetryAux]
    cases attempt n with
    | ok d => simp
    | error e =>
      dsimp only
      by_cases ht : e.is_transient = true
      · rw [if_pos ht]
        simp
      · rw [if_neg ht]
        simp
  | succ fuel ih =>
    intro n
    rw [fetchRetryAux]
    cases attempt n with
    | ok d => simp
    | error e =>
      dsimp only
      by_cases ht : e.is_transient = true
      · rw [if_pos ht]
        simpa using Nat.succ_le_succ (ih (n + 1))
      · rw [if_neg ht]
        simp

theorem fetchRetryAux_transient (attempt : Nat → Except FetchErr RawDocument) :
    ∀ (fuel n i : Nat), i < (fetchRetryAux attempt n fuel).1.length →
    ∃ e, attempt (n + i) = .error e ∧ e.is_transient = true := by
  intro fuel
  induction fuel with
  | zero =>
    intro n i hi
    rw [fetchRetryAux] at hi
    cases hm : attempt n with
    | ok d => rw [hm] at hi; simp at hi
    | error e =>
      rw [hm] at hi
      dsimp only at hi
      by_cases ht : e.is_transient = true
      · rw [if_pos ht] at hi; simp at hi
      · rw [if_neg ht] at hi; simp at hi
  | succ fuel ih =>
    intro n i hi
    rw [fetchRetryAux] at hi
    cases hm : attempt n with
    | ok d => rw [hm] at hi; simp at hi
    | error e =>
      rw [hm] at hi
      dsimp only at hi
      by_cases ht : e.is_transient = true
      · rw [if_pos ht] at hi
        dsimp only at hi
        cases i with
        | zero => exact ⟨e, by simpa using hm, ht⟩
        | succ j =>
          rw [List.length_cons] at hi
          have hj : j < (fetchRetryAux attempt (n + 1) fuel).1.length :=
            Nat.lt_of_succ_lt_succ hi
          obtain ⟨e2, he2, ht2⟩ := ih (n + 1) j hj
          refine ⟨e2, ?_, ht2⟩
          rw [show n + (j + 1) = n + 1 + j by omega]
          exact he2
      · rw [if_neg ht] at hi; simp at hi

theorem fetchRetryAux_waits (attempt : Nat → Except FetchErr RawDocument) :
    ∀ (fuel n : Nat), ∀ w ∈ (fetchRetryAux attempt n fuel).1,
    1 ≤ w ∧ w ≤ 30 := by
  intro fuel
  induction fuel with
  | zero =>
    intro n w hw
    rw [fetchRetryAux] at hw
    cases hm : attempt n with
    | ok d => rw [hm] at hw; simp at hw
    | error e =>
      rw [hm] at hw
      dsimp only at hw
      by_cases ht : e.is_transient = true
      · rw [if_pos ht] at hw; simp at hw
      · rw [if_neg ht] at hw; simp at hw
  | succ fuel ih =>
    intro n w hw
    rw [fetchRetryAux] at hw
    cases hm : attempt n with
    | ok d => rw [hm] at hw; simp at hw
    | error e =>
      rw [hm] at hw
      dsimp only at hw
      by_cases ht : e.is_transient = true
      · rw [if_pos ht] at hw
        dsimp only at hw
        rcases List.mem_cons.mp hw with hw0 | hw1
        · rw [hw0]; exact wait_exponential_bounds n
        · exact ih (n + 1) w hw1
      · rw [if_neg ht] at hw; simp at hw

/-- C6.  Retry policy of `BaseScraper.fetch`: at most `max_retries`
attempts in total; every retry follows a transient failure (an HTTP
status error or a timeout) — never any other error, which fails
immediately without retrying; every backoff wait lies in
`[retry_wait_min, retry_wait_max]`; and when all `max_retries` attempts
fail transiently the fetch fails with the last error. -/
theorem fetch_retry_policy (attempt : Nat → Except FetchErr RawDocument) :
    (BaseScraper.fetch attempt).1.length + 1 ≤ BaseScraper.max_retries ∧
    (∀ i, i < (BaseScraper.fetch attempt).1.length →
      ∃ e, attempt (1 + i) = .error e ∧ e.is_transient = true) ∧
    (∀ w ∈ (BaseScraper.fetch attempt).1,
      BaseScraper.retry_wait_min ≤ w ∧ w ≤ BaseScraper.retry_wait_max) ∧
    (∀ e, attempt 1 = .error e → e.is_transient = false →
      BaseScraper.fetch attempt = ([], .error e)) ∧
    (∀ e1 e2 e3, attempt 1 = .error e1 → e1.is_transient = true →
      attempt 2 = .error e2 → e2.is_transient = true →
      attempt 3 = .error e3 → e3.is_transient = true →
      (BaseScraper.fetch attempt).2 = .error e3 ∧
      (BaseScraper.fetch attempt).1.length = BaseScraper.max_retries - 1) := by
  refine ⟨?_, ?_, ?_, ?_, ?_⟩
  · have h := fetchRetryAux_len attempt (BaseScraper.max_retries - 1) 1
    unfold BaseScraper.fetch
    unfold BaseScraper.max_retries at h ⊢
    omega
  · exact fun i hi => fetchRetryAux_transient attempt (BaseScraper.max_retries - 1) 1 i hi
  · exact fun w hw => fetchRetryAux_waits attempt (BaseScraper.max_retries - 1) 1 w hw
  · intro e h1 ht
    simp [BaseScraper.fetch, fetchRetryAux, h1, ht]
  · intro e1 e2 e3 h1 ht1 h2 ht2 h3 ht3
    have hshow : BaseScraper.max_retries - 1 = 2 := rfl
    simp only [BaseScraper.fetch, hshow]
    rw [fetchRetryAux, h1]
    dsimp only
    rw [if_pos ht1]
    dsimp only
    rw [show (1 : Nat) + 1 = 2 from rfl, fetchRetryAux, h2]
    dsimp only
    rw [if_pos ht2]
    dsimp only
    rw [show (2 : Nat) + 1 = 3 from rfl, fetchRetryAux, h3]
    dsimp only
    rw [if_pos ht3]
    exact ⟨rfl, rfl⟩

/-- Attempt function that always times out. -/
def attTO : Nat → Except FetchErr RawDocument := fun _ => .error .timeoutError

/-- Attempt function that always fails non-transiently. -/
def attBad : Nat → Except FetchErr RawDocument :=
  fun _ => .error (.otherError "malformed URL")

theorem fetch_retry_policy_witness :
    (BaseScraper.fetch attTO).1.length + 1 ≤ BaseScraper.max_retries ∧
    (∀ w ∈ (BaseScraper.fetch attTO).1,
      BaseScraper.retry_wait_min ≤ w ∧ w ≤ BaseScraper.retry_wait_max) ∧
    (BaseScraper.fetch attTO).2 = .error .timeoutError ∧
    (BaseScraper.fetch attTO).1.length = BaseScraper.max_retries - 1 ∧
    BaseScraper.fetch attBad = ([], .error (.otherError "malformed URL")) := by
  have h := fetch_retry_policy attTO
  have hbad := fetch_retry_policy attBad
  have hex := h.2.2.2.2 .timeoutError .timeoutError .timeoutError
    rfl rfl rfl rfl rfl rfl
  exact ⟨h.1, h.2.2.1, hex.1, hex.2,
    hbad.2.2.2.1 (.otherError "malformed URL") rfl rfl⟩

/-! ### Helper lemmas: dry-run behaviour -/

theorem processPair_dry_upload_irrel (p : Pipeline) (md5hex : String → String)
    (embed : String → Except EmbeddingError (List Int))
    (upload upload' : List ProcessedSnippet → Except UploadError (Nat × Nat))
    (acc : PipelineStats × List ProcessedSnippet) (pair : Chunk × String) :
    processPair p true md5hex embed upload acc pair
      = processPair p true md5hex embed upload' acc pair := by
  unfold processPair
  dsimp only
  cases embed pair.2 with
  | error e => rfl
  | ok emb => rfl

theorem foldl_processPair_dry_upload_irrel (p : Pipeline)
    (md5hex : String → String) (embed : String → Except EmbeddingError (List Int))
    (upload upload' : List ProcessedSnippet → Except UploadError (Nat × Nat)) :
    ∀ (pairs : List (Chunk × String)) (acc : PipelineStats × List ProcessedSnippet),
    pairs.foldl (processPair p true md5hex embed upload) acc
      = pairs.foldl (processPair p true md5hex embed upload') acc
  | [], _ => rfl
  | pr :: rest, acc => by
    rw [List.foldl_cons, List.foldl_cons,
      processPair_dry_upload_irrel p md5hex embed upload upload' acc pr]
    exact foldl_processPair_dry_upload_irrel p md5hex embed upload upload' rest _

theorem phase4_dry_upload_irrel (p : Pipeline) (md5hex : String → String)
    (embed : String → Except EmbeddingError (List Int))
    (upload upload' : List ProcessedSnippet → Except UploadError (Nat × Nat))
    (pairs : List (Chunk × String)) (stats0 : PipelineStats) :
    phase4 p true md5hex embed upload pairs stats0
      = phase4 p true md5hex embed upload' pairs stats0 := by
  unfold phase4
  rw [foldl_processPair_dry_upload_irrel p md5hex embed upload upload' pairs]
  simp only [eq_self_iff_true, if_true]

theorem processPair_dry_inv (p : Pipeline) (md5hex : String → String)
    (embed : String → Except EmbeddingError (List Int))
    (upload : List ProcessedSnippet → Except UploadError (Nat × Nat))
    (acc : PipelineStats × List ProcessedSnippet) (pair : Chunk × String)
    (hinv : acc.1.snippets_uploaded + acc.2.length = acc.1.snippets_embedded) :
    (processPair p true md5hex embed upload acc pair).1.snippets_uploaded
      + (processPair p true md5hex embed upload acc pair).2.length
      = (processPair p true md5hex embed upload acc pair).1.snippets_embedded := by
  unfold processPair
  dsimp only
  cases embed pair.2 with
  | error e => exact hinv
  | ok emb =>
    dsimp only
    by_cases hb : p.batch_size ≤
        (acc.2 ++ [mkProcessedSnippet md5hex pair.1 pair.2 emb]).length
    · rw [if_pos hb, if_pos rfl]
      simp only [List.length_append, List.length_cons, List.length_nil] at *
      omega
    · rw [if_neg hb]
      simp only [List.length_append, List.length_cons, List.length_nil] at *
      omega

theorem foldl_processPair_dry_inv (p : Pipeline) (md5hex : String → String)
    (embed : String → Except EmbeddingError (List Int))
    (upload : List ProcessedSnippet → Except UploadError (Nat × Nat)) :
    ∀ (pairs : List (Chunk × String)) (acc : PipelineStats × List ProcessedSnippet),
    acc.1.snippets_uploaded + acc.2.length = acc.1.snippets_embedded →
    (pairs.foldl (processPair p true md5hex embed upload) acc).1.snippets_uploaded
      + (pairs.foldl (processPair p true md5hex embed upload) acc).2.length
      = (pairs.foldl (processPair p true md5hex embed upload) acc).1.snippets_embedded
  | [], _, hinv => hinv
  | pr :: rest, acc, hinv => by
    rw [List.foldl_cons]
    exact foldl_processPair_dry_inv p md5hex embed upload rest _
      (processPair_dry_inv p md5hex embed upload acc pr hinv)

theorem phase4_dry_ok (p : Pipeline) (md5hex : String → String)
    (embed : String → Except EmbeddingError (List Int))
    (upload : List ProcessedSnippet → Except UploadError (Nat × Nat))
    (pairs : List (Chunk × String)) (stats0 : PipelineStats)
    (h0 : stats0.snippets_uploaded = stats0.snippets_embedded) :
    ∃ stats, phase4 p true md5hex embed upload pairs stats0 = .ok stats ∧
      stats.snippets_uploaded = stats.snippets_embedded ∧
      stats.chunks_filtered = stats0.chunks_filtered := by
  have hinv := foldl_processPair_dry_inv p md5hex embed upload pairs (stats0, [])
    (by simpa using h0)
  have hpres := foldl_processPair_preserves p true md5hex embed upload pairs
    (stats0, [])
  unfold phase4
  dsimp only
  split
  · next hbe =>
    refine ⟨_, rfl, ?_, hpres.2.1⟩
    rw [hbe] at hinv
    simpa using hinv
  · rw [if_pos rfl]
    refine ⟨_, rfl, ?_, hpres.2.1⟩
    simpa using hinv

theorem run_dry_ok (p : Pipeline) (md5hex : String → String)
    (embed : String → Except EmbeddingError (List Int))
    (upload : List ProcessedSnippet → Except UploadError (Nat × Nat))
    (filterResp : Option (Chunk → Except FilterError String))
    (events : List HistoricalEvent) :
    ∃ stats, p.run true md5hex embed upload filterResp events = .ok stats ∧
      stats.snippets_uploaded = stats.snippets_embedded ∧
      (p.use_llm_filter = false → stats.chunks_filtered = 0) := by
  by_cases hev : events = []
  · subst hev
    exact ⟨_, rfl, rfl, fun _ => rfl⟩
  · simp only [Pipeline.run, if_neg hev]
    cases hllm : p.use_llm_filter with
    | true =>
      cases filterResp with
      | some resp =>
        simp only [eq_self_iff_true, if_true]
        split
        · exact ⟨_, rfl, rfl, fun hfalse => by simp [hllm] at hfalse⟩
        · obtain ⟨stats, hst, hue, _⟩ := phase4_dry_ok p md5hex embed upload
            (LLMFilter.filter_chunks resp
              (events.flatMap fun ev => p.chunker.chunk_event ev) false)
            ⟨events.length,
             (events.flatMap fun ev => p.chunker.chunk_event ev).length,
             (events.flatMap fun ev => p.chunker.chunk_event ev).length -
               (LLMFilter.filter_chunks resp
                 (events.flatMap fun ev => p.chunker.chunk_event ev) false).length,
             (LLMFilter.filter_chunks resp
               (events.flatMap fun ev => p.chunker.chunk_event ev) false).length,
             0, 0, 0, 0⟩ rfl
          exact ⟨stats, hst, hue, fun hfalse => by simp [hllm] at hfalse⟩
      | none =>
        simp only [eq_self_iff_true, if_true]
        split
        · exact ⟨_, rfl, rfl, fun _ => rfl⟩
        · obtain ⟨stats, hst, hue, hcf⟩ := phase4_dry_ok p md5hex embed upload
            ((events.flatMap fun ev => p.chunker.chunk_event ev).map
              fun chunk => (chunk, chunk.content))
            ⟨events.length,
             (events.flatMap fun ev => p.chunker.chunk_event ev).length, 0,
             (events.flatMap fun ev => p.chunker.chunk_event ev).length,
             0, 0, 0, 0⟩ rfl
          exact ⟨stats, hst, hue, fun _ => hcf⟩
    | false =>
      simp only [Bool.false_eq_true, if_false]
      split
      · exact ⟨_, rfl, rfl, fun _ => rfl⟩
      · obtain ⟨stats, hst, hue, hcf⟩ := phase4_dry_ok p md5hex embed upload
          ((events.flatMap fun ev => p.chunker.chunk_event ev).map
            fun chunk => (chunk, chunk.content))
          ⟨events.length,
           (events.flatMap fun ev => p.chunker.chunk_event ev).length, 0,
           (events.flatMap fun ev => p.chunker.chunk_event ev).length,
           0, 0, 0, 0⟩ rfl
        exact ⟨stats, hst, hue, fun _ => hcf⟩

theorem run_dry_upload_irrel (p : Pipeline) (md5hex : String → String)
    (embed : String → Except EmbeddingError (List Int))
    (upload upload' : List ProcessedSnippet → Except UploadError (Nat × Nat))
    (filterResp : Option (Chunk → Except FilterError String))
    (events : List HistoricalEvent) :
    p.run true md5hex embed upload filterResp events
      = p.run true md5hex embed upload' filterResp events := by
  by_cases hev : events = []
  · subst hev
    rfl
  · simp only [Pipeline.run, if_neg hev]
    cases hllm : p.use_llm_filter with
    | true =>
      cases filterResp with
      | some resp =>
        simp only [eq_self_iff_true, if_true]
        split
        · rfl
        · exact phase4_dry_upload_irrel p md5hex embed upload upload' _ _
      | none =>
        simp only [eq_self_iff_true, if_true]
        split
        · rfl
        · exact phase4_dry_upload_irrel p md5hex embed upload upload' _ _
    | false =>
      simp only [Bool.false_eq_true, if_false]
      split
      · rfl
      · exact phase4_dry_upload_irrel p md5hex embed upload upload' _ _

/-- C8.  Dry-run accounting: with `dry_run = true`, the run result does
not depend on the storage upload collaborator (`_upload_batch` is never
invoked), the run always succeeds, at the end of the run
`snippets_uploaded = snippets_embedded` (each flush adds the batch
length), and with filtering disabled `chunks_filtered = 0`. -/
theorem dry_run_accounting (p : Pipeline) (dry : Bool)
    (md5hex : String → String) (embed : String → Except EmbeddingError (List Int))
    (upload upload' : List ProcessedSnippet → Except UploadError (Nat × Nat))
    (filterResp : Option (Chunk → Except FilterError String))
    (events : List HistoricalEvent) (hdry : dry = true) :
    p.run dry md5hex embed upload filterResp events
      = p.run dry md5hex embed upload' filterResp events ∧
    ∃ stats, p.run dry md5hex embed upload filterResp events = .ok stats ∧
      stats.snippets_uploaded = stats.snippets_embedded ∧
      (p.use_llm_filter = false → stats.chunks_filtered = 0) := by
  subst hdry
  exact ⟨run_dry_upload_irrel p md5hex embed upload upload' filterResp events,
    run_dry_ok p md5hex embed upload filterResp events⟩

/-- Pipeline with filtering disabled and batch size 2 for the C8
witness. -/
def pD : Pipeline := ⟨2, 500, 100, false⟩

/-- An upload collaborator that always fails (never reached in
dry-run). -/
def uploadFail : List ProcessedSnippet → Except UploadError (Nat × Nat) :=
  fun _ => .error (.uploadFailure "storage down")

theorem dry_run_accounting_witness :
    pD.run true md5S embedS uploadS none eventsS
      = pD.run true md5S embedS uploadFail none eventsS ∧
    ∃ stats, pD.run true md5S embedS uploadS none eventsS = .ok stats ∧
      stats.snippets_uploaded = stats.snippets_embedded ∧
      (pD.use_llm_filter = false → stats.chunks_filtered = 0) :=
  dry_run_accounting pD true md5S embedS uploadS uploadFail none eventsS rfl

/-! ### C7: upload error propagation -/

/-- Pipeline with batch size 1, filtering disabled, for the C7
counterexample. -/
def pC : Pipeline := ⟨1, 500, 100, false⟩

/-- First event of the C7 counterexample. -/
def evA2 : HistoricalEvent := ⟨"Alpha", "A.", 1, 1, [], .other, "r", "u", []⟩

/-- Second event of the C7 counterexample. -/
def evB2 : HistoricalEvent := ⟨"Bravo", "B.", 1, 1, [], .other, "r", "u", []⟩

/-- The single chunk of `evA2`. -/
def cA : Chunk := ⟨"A.", 0, 1, "Alpha", 1, 1, "u", "r", [], []⟩

/-- An upload collaborator that fails exactly on the singleton batch
holding the snippet of `evA2` (the batch the run flushes first) and
succeeds on every other batch. -/
def uploadC : List ProcessedSnippet → Except UploadError (Nat × Nat) :=
  fun b =>
    if b.length = 1 ∧ (b.head?.map fun s => s.content) = some "A." then
      .error (.uploadFailure "boom")
    else .ok (b.length, 0)

/-- Counterexample to C7 as stated: in this `dry_run = false` run the
storage collaborator raises on the first mid-loop batch flush (first
conjunct: it errors on exactly the batch the run uploads first), yet
the run does not propagate the error — it returns `.ok` with
`errors = 1`, i.e. the upload failure was caught by the per-chunk
handler and counted as a per-chunk error (the embedding collaborator
never fails, so the counted error is the upload's). -/
theorem upload_error_not_propagated :
    uploadC [mkProcessedSnippet md5S cA "A." [1]]
      = .error (.uploadFailure "boom") ∧
    pC.run false md5S embedS uploadC none [evA2, evB2]
      = .ok ⟨2, 2, 0, 2, 2, 2, 0, 1⟩ :=
  ⟨rfl, rfl⟩

/-- C7 (amended).  Upload errors are unrecovered only for the final
post-loop batch upload: (i) when the loop leaves a non-empty batch and
the storage collaborator fails on it, the error propagates out of the
embed-upload phase (hence out of the run); (ii) an upload error at a
mid-loop batch flush is caught by the per-chunk `except` handler —
the step returns normally with `errors` incremented and the batch
retained (the claim's statement that every upload error propagates is
refuted by `upload_error_not_propagated`). -/
theorem upload_error_propagation_amended (p : Pipeline)
    (md5hex : String → String) (embed : String → Except EmbeddingError (List Int))
    (upload : List ProcessedSnippet → Except UploadError (Nat × Nat))
    (pairs : List (Chunk × String)) (stats0 : PipelineStats) :
    (∀ e, (pairs.foldl (processPair p false md5hex embed upload) (stats0, [])).2 ≠ [] →
      upload (pairs.foldl (processPair p false md5hex embed upload) (stats0, [])).2
        = .error e →
      phase4 p false md5hex embed upload pairs stats0 = .error e) ∧
    (∀ acc chunk fc emb e, embed fc = .ok emb →
      p.batch_size ≤ (acc.2 ++ [mkProcessedSnippet md5hex chunk fc emb]).length →
      upload (acc.2 ++ [mkProcessedSnippet md5hex chunk fc emb]) = .error e →
      processPair p false md5hex embed upload acc (chunk, fc)
        = ({ acc.1 with
              snippets_embedded := acc.1.snippets_embedded + 1,
              errors := acc.1.errors + 1 },
           acc.2 ++ [mkProcessedSnippet md5hex chunk fc emb])) := by
  constructor
  · intro e hne herr
    unfold phase4
    dsimp only
    rw [if_neg hne, if_neg (by simp), herr]
  · intro acc chunk fc emb e hemb hb herr
    unfold processPair
    dsimp only
    rw [hemb]
    dsimp only
    rw [if_pos hb, if_neg (by simp), herr]

theorem upload_error_propagation_amended_witness :
    phase4 pC false md5S embedS uploadC [(cA, "A.")] ⟨1, 1, 0, 1, 0, 0, 0, 0⟩
      = .error (.uploadFailure "boom") ∧
    processPair pC false md5S embedS uploadC (⟨1, 1, 0, 1, 0, 0, 0, 0⟩, []) (cA, "A.")
      = (⟨1, 1, 0, 1, 1, 0, 0, 1⟩, [mkProcessedSnippet md5S cA "A." [1]]) := by
  have h := upload_error_propagation_amended pC md5S embedS uploadC
    [(cA, "A.")] ⟨1, 1, 0, 1, 0, 0, 0, 0⟩
  exact ⟨h.1 (.uploadFailure "boom") (by decide) rfl,
    h.2 (⟨1, 1, 0, 1, 0, 0, 0, 0⟩, []) cA "A." [1] (.uploadFailure "boom")
      rfl (by decide) rfl⟩

/-- C10.  Every `ProcessedSnippet` built in the pipeline's embed phase
has `source` equal to the literal `"wikipedia"` — `mkProcessedSnippet`,
the constructor call of `Pipeline.run` lines 167-180, takes no scraper
input at all, so the scraper's name cannot influence it — and a
non-`none` `content_hash` auto-generated by `__post_init__` as the MD5
digest of the content, `":"`, and the event date. -/
theorem snippet_source_and_hash (md5hex : String → String) (chunk : Chunk)
    (filtered_content : String) (embedding : List Int) :
    (mkProcessedSnippet md5hex chunk filtered_content embedding).source
      = "wikipedia" ∧
    (mkProcessedSnippet md5hex chunk filtered_content embedding).content_hash
      = some (md5hex (filtered_content ++ ":" ++ toString chunk.event_date)) :=
  ⟨rfl, rfl⟩

end RiskyRag
